import Mathlib

/-!
Verification of the SovereignMap federated-learning core.

This file embeds the aggregation-relevant logic of the repository in Lean:

* `src/src/aggregator.py`: `MultiKrumStrategy._multi_krum_select` (Multi-Krum
  selection over a pairwise Euclidean distance matrix, with Python slice
  semantics modelled exactly);
* `sovereignmap_poc.py`: `ModelUpdate.verify_signature`,
  `SovereignMapNode.create_update`, `SovereignMapNode.update_stake`,
  `stake_weighted_trimmed_mean`, and `FederatedCoordinator.run_round`;
* `sovereignmap_production_backend.py`: the `/fl_round` endpoint body
  (`backend_fl_round` below) and its identical `stake_weighted_trimmed_mean`.

Real numbers in the source (numpy float64) are modelled as rationals;
the truncated SHA-256 authentication tag is modelled as an abstract
tag function `tag : Nat → Nat → String`, universally quantified in the
theorems that mention it.
-/

/-- Python index normalization for a slice bound: a negative bound counts
from the end of the list (clamped at 0), a non-negative bound is clamped
at the length. -/
def pyIdx (len : Nat) (i : Int) : Nat :=
  if i < 0 then ((len : Int) + i).toNat else min i.toNat len

/-- Python slice `l[a:b]` with the usual clamping semantics. -/
def pySlice (l : List α) (a b : Int) : List α :=
  (l.drop (pyIdx l.length a)).take (pyIdx l.length b - pyIdx l.length a)

/-- Ascending sort of rationals, modelling `np.sort` / Python `list.sort`
on numeric values. -/
def npSort (l : List ℚ) : List ℚ := List.insertionSort (· ≤ ·) l

/-- Lexicographic order on `(score, index)` pairs, as Python compares the
tuples appended by `_multi_krum_select` (`scores.sort()`): by score first,
exact ties broken by ascending index. -/
def scoreLe (a b : ℚ × Nat) : Prop := a.1 < b.1 ∨ (a.1 = b.1 ∧ a.2 ≤ b.2)

instance : DecidableRel scoreLe := fun a b => by unfold scoreLe; infer_instance

instance : IsTotal (ℚ × Nat) scoreLe :=
  ⟨fun a b => by
    unfold scoreLe
    rcases lt_trichotomy a.1 b.1 with h | h | h
    · exact Or.inl (Or.inl h)
    · rcases Nat.le_total a.2 b.2 with h2 | h2
      · exact Or.inl (Or.inr ⟨h, h2⟩)
      · exact Or.inr (Or.inr ⟨h.symm, h2⟩)
    · exact Or.inr (Or.inl h)⟩

instance : IsTrans (ℚ × Nat) scoreLe :=
  ⟨fun a b c hab hbc => by
    unfold scoreLe at *
    rcases hab with h1 | ⟨e1, le1⟩
    · rcases hbc with h2 | ⟨e2, _⟩
      · exact Or.inl (h1.trans h2)
      · exact Or.inl (e2 ▸ h1)
    · rcases hbc with h2 | ⟨e2, le2⟩
      · exact Or.inl (e1 ▸ h2)
      · exact Or.inr ⟨e1.trans e2, le1.trans le2⟩⟩

instance : IsAntisymm (ℚ × Nat) scoreLe :=
  ⟨fun a b hab hba => by
    unfold scoreLe at *
    rcases hab with h1 | ⟨e1, le1⟩
    · rcases hba with h2 | ⟨e2, _⟩
      · exact absurd h2 (lt_asymm h1)
      · exact absurd (e2 ▸ h1) (lt_irrefl _)
    · rcases hba with h2 | ⟨e2, le2⟩
      · exact absurd (e1 ▸ h2) (lt_irrefl _)
      · exact Prod.ext e1 (Nat.le_antisymm le1 le2)⟩

/-- Krum score of one row of the distance matrix as `_multi_krum_select`
computes it: `np.sort(distances[i])` ascending, then
`np.sum(sorted_dists[1:num_neighbors+1])` with Python slice semantics. -/
def krum_score (k : Int) (row : List ℚ) : ℚ := (pySlice (npSort row) 1 (k + 1)).sum

/-- Pairwise distance matrix of `_multi_krum_select`: entry `(i, j)` is
`d v_i v_j`; the loop fills both symmetric entries and leaves the zero
diagonal, which for a metric `d` is exactly this matrix. -/
def pairwise_distances (d : α → α → ℚ) (vs : List α) : List (List ℚ) :=
  vs.map (fun v => vs.map (fun w => d v w))

/-- Euclidean distance (`np.linalg.norm` of the difference) between
dimension-1 vectors, which is exact over the rationals. -/
def dist1 (x y : ℚ) : ℚ := |x - y|

/-- MultiKrumStrategy._multi_krum_select of `src/src/aggregator.py`, as a
function of the pairwise distance matrix it builds (first half of the
method) and `m = self.num_byzantine`:
`num_neighbors = n - m - 2`; `score_i = sum(sorted(row_i)[1:k+1])`;
`scores.sort()` on `(score, i)` tuples; `num_selection = min(n - 2*m + 2, n)`;
return the indices of `scores[:num_selection]`. -/
def multi_krum_select (m : Nat) (D : List (List ℚ)) : List Nat :=
  let n := D.length
  let k : Int := (n : Int) - (m : Int) - 2
  let scores := (List.range n).map (fun i => (krum_score k (D.getD i []), i))
  let sorted := List.insertionSort scoreLe scores
  let numSel : Int := min ((n : Int) - 2 * (m : Int) + 2) (n : Int)
  (pySlice sorted 0 numSel).map Prod.snd

/-- Krum score as the specification words it: sort row `i` of the distance
matrix ascending, excluding the self-distance, and sum the smallest `k`
values. -/
def spec_krum_score (k : Nat) (row : List ℚ) (i : Nat) : ℚ :=
  ((npSort (row.eraseIdx i)).take k).sum

/-- Multi-Krum selection exactly as the claim states it: Krum scores with
the self-distance excluded, candidates sorted ascending by score with ties
broken by ascending index, and the `keep = max(N - 2f, 1)` lowest-scoring
indices returned. -/
def spec_select_claimed (f : Nat) (D : List (List ℚ)) : List Nat :=
  let n := D.length
  let scores := (List.range n).map (fun i => (spec_krum_score (n - f - 2) (D.getD i []) i, i))
  ((List.insertionSort scoreLe scores).take (max (n - 2 * f) 1)).map Prod.snd

/-- Multi-Krum selection as the claim states it but with the keep count the
code actually uses, `keep = min(N - 2f + 2, N)`. -/
def spec_select_fixed (f : Nat) (D : List (List ℚ)) : List Nat :=
  let n := D.length
  let scores := (List.range n).map (fun i => (spec_krum_score (n - f - 2) (D.getD i []) i, i))
  ((List.insertionSort scoreLe scores).take (min (n - 2 * f + 2) n)).map Prod.snd

/-- ModelUpdate of `sovereignmap_poc.py` (weights as a rational vector). -/
structure ModelUpdate where
  node_id : Nat
  round_number : Nat
  weights : List ℚ
  stake : ℚ
  contribution_score : ℚ
  timestamp : ℚ
  signature : String

/-- ModelUpdate.verify_signature: the stored signature is compared with the
first 16 hex characters of SHA-256 of `node_id` concatenated with
`round_number`; the truncated hash is modelled as the abstract tag
function `tag`. -/
def verify_signature (tag : Nat → Nat → String) (u : ModelUpdate) : Bool :=
  u.signature == tag u.node_id u.round_number

/-- Node state of `SovereignMapNode` (the fields the claims touch). -/
structure Node where
  id : Nat
  stake : ℚ
  contribution_score : ℚ
  stake_history : List ℚ
  last_update_round : Nat
  is_online : Bool
  model_weights : List ℚ

instance : Inhabited Node :=
  ⟨{ id := 0, stake := 0, contribution_score := 1, stake_history := [0],
     last_update_round := 0, is_online := true, model_weights := [] }⟩

/-- SovereignMapNode.__init__: stake set to the initial stake, contribution
score 1.0, stake history starting as `[initial_stake]`, online. -/
def init_node (node_id : Nat) (initial_stake : ℚ) : Node :=
  { id := node_id, stake := initial_stake, contribution_score := 1,
    stake_history := [initial_stake], last_update_round := 0,
    is_online := true, model_weights := [] }

/-- SovereignMapNode.update_stake: add the signed reward, clamp at zero,
append the resulting stake to the stake history. -/
def update_stake (n : Node) (reward : ℚ) : Node :=
  let s := max 0 (n.stake + reward)
  { n with stake := s, stake_history := n.stake_history ++ [s] }

/-- Repeated `update_stake` calls, first delta applied first. -/
def apply_deltas (n : Node) (ds : List ℚ) : Node := ds.foldl update_stake n

/-- SovereignMapNode.create_update: a signed update carrying the node's
current stake and contribution score; the signature is the same truncated
hash of `(node_id, round_number)` that `verify_signature` recomputes. -/
def create_update (tag : Nat → Nat → String) (n : Node) (round_number : Nat)
    (delta : List ℚ) (ts : ℚ) : ModelUpdate :=
  { node_id := n.id, round_number := round_number, weights := delta,
    stake := n.stake, contribution_score := n.contribution_score,
    timestamp := ts, signature := tag n.id round_number }

/-- Median of a 1-D array as `np.median` computes it: middle element of the
ascending sort for odd length, average of the two middle elements for even
length. -/
def np_median (l : List ℚ) : ℚ :=
  let s := npSort l
  if l.length % 2 = 1 then s.getD (l.length / 2) 0
  else (s.getD (l.length / 2 - 1) 0 + s.getD (l.length / 2) 0) / 2

/-- Coordinate-wise median (`np.median(stacked, axis=0)`) of a stack of
equal-length vectors. -/
def np_median_axis0 (rows : List (List ℚ)) : List ℚ :=
  (List.range (rows.headD []).length).map
    (fun j => np_median (rows.map (fun r => r.getD j 0)))

/-- stake_weighted_trimmed_mean as written identically in
`sovereignmap_poc.py` and `sovereignmap_production_backend.py` (the backend
reads `contribution_score` with default 1.0; every call site populates it):
fewer than 2 updates gives None; `weights = stakes * contribs` with
`weights.sum() <= 0` gives None; otherwise the result is the plain
coordinate-wise median of the stacked weight vectors (the computed
normalized weights and the `trim_fraction` argument are never used). -/
def stake_weighted_trimmed_mean (updates : List ModelUpdate) (trim_fraction : ℚ) :
    Option (List ℚ) :=
  if updates.length < 2 then none
  else if (updates.map (fun u => u.stake * u.contribution_score)).sum ≤ 0 then none
  else some (np_median_axis0 (updates.map (fun u => u.weights)))

/-- Coordinator state of `FederatedCoordinator`. -/
structure Coordinator where
  nodes : List Node
  round_number : Nat

/-- Per-round summary values `run_round` produces (the fields the claims
touch: the number of accepted updates and the aggregation-success flag of
the emitted `Metrics`). -/
structure RoundResult where
  accepted_count : Nat
  aggregation_success : Bool

/-- Does this node contribute an accepted update in round `r`: it is online,
its local training returns a delta, and the created update passes signature
verification (step 1 of `run_round`). `train` is the external local-training
collaborator, keyed by node id. -/
def contributes (tag : Nat → Nat → String) (train : Nat → Option (List ℚ))
    (ts : ℚ) (r : Nat) (n : Node) : Bool :=
  n.is_online &&
    match train n.id with
    | some delta => verify_signature tag (create_update tag n r delta ts)
    | none => false

/-- Loop body of step 1 of `FederatedCoordinator.run_round` for one node:
an online node is trained, a returned delta becomes a signed update, and the
update is accepted if its signature verifies. -/
def collect_one (tag : Nat → Nat → String) (train : Nat → Option (List ℚ))
    (ts : ℚ) (r : Nat) (n : Node) : Option ModelUpdate :=
  if n.is_online then
    match train n.id with
    | some delta =>
      let u := create_update tag n r delta ts
      if verify_signature tag u then some u else none
    | none => none
  else none

/-- Step 1 of `FederatedCoordinator.run_round`: iterate over the online
nodes, train each, create a signed update from a returned delta, and accept
it if the signature verifies. -/
def collect_updates (tag : Nat → Nat → String) (train : Nat → Option (List ℚ))
    (ts : ℚ) (r : Nat) (nodes : List Node) : List ModelUpdate :=
  nodes.filterMap (collect_one tag train ts r)

/-- Element-wise vector addition (numpy `+` on equal-shape arrays). -/
def add_vec (a b : List ℚ) : List ℚ := List.zipWith (· + ·) a b

/-- FederatedCoordinator.run_round of `sovereignmap_poc.py`:
increment the round number; collect accepted updates from online nodes
(marking each contributor's `last_update_round`); if at least 2 updates were
accepted run `stake_weighted_trimmed_mean` (default trim 0.2) and on success
apply the aggregated delta to every online node's model; then, for every
online node, reward `50 + noise` if its `last_update_round` equals this
round and penalize `-20` otherwise. `noise` models `random.uniform(-10, 10)`
keyed by node id; `ts` models the wall clock. The loops are modelled as maps
of the per-node functions below; `run_round` chains them. -/
def mark_contributor (tag : Nat → Nat → String) (train : Nat → Option (List ℚ))
    (ts : ℚ) (r : Nat) (n : Node) : Node :=
  if contributes tag train ts r n then { n with last_update_round := r } else n

/-- Application of the aggregated delta to one node (step 2 of `run_round`):
when an aggregate exists, every online node adds it to its model weights;
when it does not, nodes are left untouched. -/
def apply_agg (agg : Option (List ℚ)) (n : Node) : Node :=
  match agg with
  | some v => if n.is_online then { n with model_weights := add_vec n.model_weights v } else n
  | none => n

/-- Reward distribution for one node (step 3 of `run_round`): every online
node gets `50 + noise` if its `last_update_round` equals the current round
and `-20` otherwise; offline nodes are not touched. -/
def reward_node (noise : Nat → ℚ) (r : Nat) (n : Node) : Node :=
  if n.is_online then
    update_stake n (if n.last_update_round = r then 50 + noise n.id else -20)
  else n

def run_round (tag : Nat → Nat → String) (train : Nat → Option (List ℚ))
    (noise : Nat → ℚ) (ts : ℚ) (c : Coordinator) : Coordinator × RoundResult :=
  let r := c.round_number + 1
  let updates := collect_updates tag train ts r c.nodes
  let agg : Option (List ℚ) :=
    if 2 ≤ updates.length then stake_weighted_trimmed_mean updates (2 / 10) else none
  let nodes3 := ((c.nodes.map (mark_contributor tag train ts r)).map
    (apply_agg agg)).map (reward_node noise r)
  (⟨nodes3, r⟩, ⟨updates.length, agg.isSome⟩)

/-- Model replacement for one node in the backend round: when an aggregate
exists it replaces the node's model weights wholesale (`set_weights`). -/
def backend_apply (agg : Option (List ℚ)) (n : Node) : Node :=
  match agg with
  | some v => { n with model_weights := v }
  | none => n

/-- The body of the `/fl_round` endpoint of
`sovereignmap_production_backend.py`: every node contributes an update (no
online filter, no signature check), the updates are aggregated with
`stake_weighted_trimmed_mean`, on success every node's model weights are
replaced by the aggregate, and then every node receives `50 + noise`
(`50 + random.uniform(-10, 10)`) — no node is ever penalized. -/
def backend_fl_round (train : Nat → List ℚ) (noise : Nat → ℚ)
    (nodes : List Node) (round_number : Nat) : List Node × Nat :=
  let r := round_number + 1
  let updates := nodes.map (fun (n : Node) =>
    ({ node_id := n.id, round_number := r, weights := train n.id,
       stake := n.stake, contribution_score := n.contribution_score,
       timestamp := 0, signature := "" } : ModelUpdate))
  let agg := stake_weighted_trimmed_mean updates (2 / 10)
  let nodes2 := (nodes.map (backend_apply agg)).map
    (fun (n : Node) => update_stake n (50 + noise n.id))
  (nodes2, r)

/-! Helper lemmas about the sort used throughout. -/

theorem npSort_perm (l : List ℚ) : (npSort l).Perm l := List.perm_insertionSort _ l

theorem npSort_sorted (l : List ℚ) : List.Sorted (· ≤ ·) (npSort l) :=
  List.sorted_insertionSort _ l

theorem npSort_congr_perm {l l' : List ℚ} (h : l.Perm l') : npSort l = npSort l' :=
  List.eq_of_perm_of_sorted ((npSort_perm l).trans (h.trans (npSort_perm l').symm))
    (npSort_sorted l) (npSort_sorted l')

theorem np_median_congr_perm {l l' : List ℚ} (h : l.Perm l') : np_median l = np_median l' := by
  unfold np_median
  rw [npSort_congr_perm h, h.length_eq]

/-- C3: every `update_stake` call sets the stake to `max 0 (old + delta)` and
appends exactly that value to the stake history; consequently the stake stays
non-negative under any sequence of deltas, and the spec example holds:
starting from stake 1000 (history `[1000]`), applying `+100` then `-2000`
ends with stake 0 and history `[1000, 1100, 0]`. -/
theorem C3_stake_floor :
    (∀ (n : Node) (d : ℚ),
        (update_stake n d).stake = max 0 (n.stake + d) ∧
        (update_stake n d).stake_history = n.stake_history ++ [max 0 (n.stake + d)]) ∧
    (∀ (n : Node) (ds : List ℚ), 0 ≤ n.stake → 0 ≤ (apply_deltas n ds).stake) ∧
    (apply_deltas (init_node 0 1000) [100, -2000]).stake = 0 ∧
    (apply_deltas (init_node 0 1000) [100, -2000]).stake_history = [1000, 1100, 0] := by
  refine ⟨fun n d => ⟨rfl, rfl⟩, ?_, ?_, ?_⟩
  · intro n ds
    induction ds generalizing n with
    | nil => exact fun h => h
    | cons d ds ih =>
      intro _
      exact ih (update_stake n d) (le_max_left 0 _)
  · norm_num [apply_deltas, update_stake, init_node, max_def]
  · norm_num [apply_deltas, update_stake, init_node, max_def]

theorem C3_stake_floor_witness : 0 ≤ (apply_deltas (init_node 7 5) [-99]).stake :=
  C3_stake_floor.2.1 (init_node 7 5) [-99] (by norm_num [init_node])

/-- C10: the verdict of `verify_signature` is exactly the comparison of the
stored signature with the tag recomputed from `(node_id, round_number)`
(the tag function models the truncated SHA-256); hence two updates that agree
on `node_id`, `round_number` and `signature` receive the same verdict no
matter how their weights, stake, contribution score or timestamp differ, and
every update built by `create_update` verifies. -/
theorem C10_verify_only_id_round (tag : Nat → Nat → String) :
    (∀ u : ModelUpdate,
        verify_signature tag u = true ↔ u.signature = tag u.node_id u.round_number) ∧
    (∀ u v : ModelUpdate,
        u.node_id = v.node_id → u.round_number = v.round_number →
        u.signature = v.signature →
        verify_signature tag u = verify_signature tag v) ∧
    (∀ (n : Node) (r : Nat) (delta : List ℚ) (ts : ℚ),
        verify_signature tag (create_update tag n r delta ts) = true) := by
  refine ⟨fun u => ?_, fun u v h1 h2 h3 => ?_, fun n r delta ts => ?_⟩
  · exact beq_iff_eq
  · unfold verify_signature
    rw [h1, h2, h3]
  · simp [verify_signature, create_update]

theorem C10_verify_only_id_round_witness :
    verify_signature (fun _ _ => "t") ⟨3, 4, [], 0, 0, 0, "t"⟩
      = verify_signature (fun _ _ => "t") ⟨3, 4, [1, 2], 99, 5, 7, "t"⟩ :=
  (C10_verify_only_id_round (fun _ _ => "t")).2.1
    ⟨3, 4, [], 0, 0, 0, "t"⟩ ⟨3, 4, [1, 2], 99, 5, 7, "t"⟩ rfl rfl rfl

/-- C4: when all stakes and contribution scores are non-negative,
`stake_weighted_trimmed_mean` returns None exactly when the selected set has
fewer than 2 entries or the total weight `sum (stake_i * contribution_i)` is
zero; in every other case it returns some consensus vector. -/
theorem C4_aggregation_none_iff (updates : List ModelUpdate) (t : ℚ)
    (hs : ∀ u ∈ updates, 0 ≤ u.stake)
    (hc : ∀ u ∈ updates, 0 ≤ u.contribution_score) :
    (stake_weighted_trimmed_mean updates t = none ↔
      updates.length < 2 ∨
        (updates.map (fun u => u.stake * u.contribution_score)).sum = 0) ∧
    (2 ≤ updates.length →
      (updates.map (fun u => u.stake * u.contribution_score)).sum ≠ 0 →
      ∃ v, stake_weighted_trimmed_mean updates t = some v) := by
  have hnn : 0 ≤ (updates.map (fun u => u.stake * u.contribution_score)).sum := by
    apply List.sum_nonneg
    intro x hx
    obtain ⟨u, hu, rfl⟩ := List.mem_map.mp hx
    exact mul_nonneg (hs u hu) (hc u hu)
  unfold stake_weighted_trimmed_mean
  by_cases h2 : updates.length < 2
  · simp [h2]
  · by_cases hz : (updates.map (fun u => u.stake * u.contribution_score)).sum ≤ 0
    · have hzz : (updates.map (fun u => u.stake * u.contribution_score)).sum = 0 :=
        le_antisymm hz hnn
      simp [h2, hz, hzz]
    · have hne : (updates.map (fun u => u.stake * u.contribution_score)).sum ≠ 0 :=
        fun he => hz (le_of_eq he)
      simp [h2, hz, hne]

theorem C4_aggregation_none_iff_witness :
    stake_weighted_trimmed_mean
        [⟨0, 1, [1], 1, 1, 0, "a"⟩, ⟨1, 1, [3], 1, 1, 0, "b"⟩] (2 / 10) = none ↔
      ([⟨0, 1, [1], 1, 1, 0, "a"⟩, (⟨1, 1, [3], 1, 1, 0, "b"⟩ : ModelUpdate)].length < 2 ∨
        ([⟨0, 1, [1], 1, 1, 0, "a"⟩, (⟨1, 1, [3], 1, 1, 0, "b"⟩ : ModelUpdate)].map
          (fun u => u.stake * u.contribution_score)).sum = 0) :=
  (C4_aggregation_none_iff
    [⟨0, 1, [1], 1, 1, 0, "a"⟩, ⟨1, 1, [3], 1, 1, 0, "b"⟩] (2 / 10)
    (by norm_num) (by norm_num)).1

/-- C9: the result of `stake_weighted_trimmed_mean` depends only on the list
of weight vectors: two update lists with the same weight vectors in the same
order, at least 2 entries and positive total weight give the same result for
any trim fractions, namely the unweighted coordinate-wise median of the
weight vectors. -/
theorem C9_stake_blind (us vs : List ModelUpdate) (t1 t2 : ℚ)
    (hw : us.map (fun u => u.weights) = vs.map (fun u => u.weights))
    (h2 : 2 ≤ us.length)
    (hu : 0 < (us.map (fun u => u.stake * u.contribution_score)).sum)
    (hv : 0 < (vs.map (fun u => u.stake * u.contribution_score)).sum) :
    stake_weighted_trimmed_mean us t1 = stake_weighted_trimmed_mean vs t2 ∧
    stake_weighted_trimmed_mean us t1
      = some (np_median_axis0 (us.map (fun u => u.weights))) := by
  have hlen : us.length = vs.length := by
    have := congrArg List.length hw
    simpa using this
  have h2v : 2 ≤ vs.length := hlen ▸ h2
  simp only [stake_weighted_trimmed_mean]
  rw [if_neg (show ¬us.length < 2 by omega), if_neg (show ¬vs.length < 2 by omega),
    if_neg (not_le.mpr hu), if_neg (not_le.mpr hv), hw]
  exact ⟨rfl, rfl⟩

theorem C9_stake_blind_witness :
    stake_weighted_trimmed_mean
        [⟨0, 1, [1], 1, 1, 0, "a"⟩, ⟨1, 1, [3], 1, 1, 0, "b"⟩] (2 / 10)
      = stake_weighted_trimmed_mean
        [⟨0, 1, [1], 50, 2, 9, "c"⟩, ⟨1, 1, [3], 7, 3, 9, "d"⟩] (1 / 2) :=
  (C9_stake_blind
    [⟨0, 1, [1], 1, 1, 0, "a"⟩, ⟨1, 1, [3], 1, 1, 0, "b"⟩]
    [⟨0, 1, [1], 50, 2, 9, "c"⟩, ⟨1, 1, [3], 7, 3, 9, "d"⟩]
    (2 / 10) (1 / 2) rfl (by norm_num)
    (by norm_num) (by norm_num)).1

theorem np_median_axis0_congr_perm {rs rs' : List (List ℚ)} (hp : rs.Perm rs')
    (Dm : Nat) (hd : ∀ r ∈ rs, r.length = Dm) (hne : rs ≠ []) :
    np_median_axis0 rs = np_median_axis0 rs' := by
  have hd' : ∀ r ∈ rs', r.length = Dm := fun r hr => hd r (hp.mem_iff.mpr hr)
  have hne' : rs' ≠ [] := by
    intro h
    exact hne (List.eq_nil_of_length_eq_zero (hp.length_eq.trans (h ▸ rfl)))
  have h1 : (rs.headD []).length = Dm := by
    cases rs with
    | nil => exact absurd rfl hne
    | cons r rest => exact hd r (List.mem_cons_self r rest)
  have h2 : (rs'.headD []).length = Dm := by
    cases rs' with
    | nil => exact absurd rfl hne'
    | cons r rest => exact hd' r (List.mem_cons_self r rest)
  unfold np_median_axis0
  rw [h1, h2]
  apply List.map_congr_left
  intro j _
  exact np_median_congr_perm (hp.map _)

/-- C8: permuting the order of a selected list of at least 2 same-dimension
updates does not change the aggregated consensus vector. -/
theorem C8_perm_invariant (us vs : List ModelUpdate) (t : ℚ) (Dm : Nat)
    (hp : us.Perm vs) (hd : ∀ u ∈ us, u.weights.length = Dm)
    (h2 : 2 ≤ us.length) :
    stake_weighted_trimmed_mean us t = stake_weighted_trimmed_mean vs t := by
  have hlen : us.length = vs.length := hp.length_eq
  have hsum : (us.map (fun u => u.stake * u.contribution_score)).sum
      = (vs.map (fun u => u.stake * u.contribution_score)).sum :=
    (hp.map _).sum_eq
  simp only [stake_weighted_trimmed_mean]
  rw [← hlen, ← hsum]
  by_cases hl2 : us.length < 2
  · simp [hl2]
  · by_cases hz : (us.map (fun u => u.stake * u.contribution_score)).sum ≤ 0
    · simp [hl2, hz]
    · simp only [if_neg hl2, if_neg hz]
      have hmed : np_median_axis0 (us.map (fun u => u.weights))
          = np_median_axis0 (vs.map (fun u => u.weights)) := by
        apply np_median_axis0_congr_perm (hp.map _) Dm
        · intro r hr
          obtain ⟨u, hu, rfl⟩ := List.mem_map.mp hr
          exact hd u hu
        · intro h
          have h0 : us.length = 0 := by simpa using congrArg List.length h
          omega
      rw [hmed]

theorem C8_perm_invariant_witness :
    stake_weighted_trimmed_mean
        [⟨0, 1, [1], 1, 1, 0, "a"⟩, ⟨1, 1, [3], 1, 1, 0, "b"⟩] (2 / 10)
      = stake_weighted_trimmed_mean
        [⟨1, 1, [3], 1, 1, 0, "b"⟩, ⟨0, 1, [1], 1, 1, 0, "a"⟩] (2 / 10) :=
  C8_perm_invariant
    [⟨0, 1, [1], 1, 1, 0, "a"⟩, ⟨1, 1, [3], 1, 1, 0, "b"⟩]
    [⟨1, 1, [3], 1, 1, 0, "b"⟩, ⟨0, 1, [1], 1, 1, 0, "a"⟩]
    (2 / 10) 1 (List.Perm.swap _ _ _) (by norm_num) (by norm_num)

theorem collect_one_some (tag : Nat → Nat → String) (train : Nat → Option (List ℚ))
    (ts : ℚ) (r : Nat) (n : Node) (u : ModelUpdate)
    (h : collect_one tag train ts r n = some u) :
    u.node_id = n.id ∧ u.round_number = r := by
  unfold collect_one at h
  by_cases ho : n.is_online <;> simp [ho] at h
  cases htr : train n.id with
  | none => rw [htr] at h; cases h
  | some delta =>
    rw [htr] at h
    by_cases hv : verify_signature tag (create_update tag n r delta ts) = true <;>
      simp [hv] at h
    rw [← h]
    exact ⟨rfl, rfl⟩

/-- C6 (amended): the collection loop accepts one update per entry of the
coordinator's node list, so when the listed ids are pairwise distinct the
accepted updates of a round have pairwise distinct
`(participant_id, round_number)` pairs (at most one accepted update per
pair), and every accepted update carries the current round number. -/
theorem C6_unique_accepted (tag : Nat → Nat → String) (train : Nat → Option (List ℚ))
    (ts : ℚ) (r : Nat) (nodes : List Node)
    (h : (nodes.map Node.id).Nodup) :
    (collect_updates tag train ts r nodes).Pairwise
      (fun u v => (u.node_id, u.round_number) ≠ (v.node_id, v.round_number)) ∧
    ∀ u ∈ collect_updates tag train ts r nodes, u.round_number = r := by
  constructor
  · unfold collect_updates
    rw [List.pairwise_filterMap]
    have hp : nodes.Pairwise (fun a b => a.id ≠ b.id) := List.pairwise_map.mp h
    refine hp.imp ?_
    intro a b hab u hu v hv heq
    have ha := collect_one_some tag train ts r a u (Option.mem_def.mp hu)
    have hb := collect_one_some tag train ts r b v (Option.mem_def.mp hv)
    apply hab
    have := congrArg Prod.fst heq
    simpa [ha.1, hb.1] using this
  · intro u hu
    obtain ⟨n, _, hfn⟩ := List.mem_filterMap.mp hu
    exact (collect_one_some tag train ts r n u hfn).2

/-- Concrete tag function for counterexamples and witnesses (models the
truncated hash of `(node_id, round_number)`). -/
def cex_tag : Nat → Nat → String := fun _ _ => "s"

/-- Concrete external trainer: node 0 returns a delta, others do not. -/
def cex_train : Nat → Option (List ℚ) := fun i => if i = 0 then some [1] else none

theorem C6_unique_accepted_witness :
    (collect_updates cex_tag cex_train 0 1 [init_node 0 1000, init_node 1 1000]).Pairwise
      (fun u v => (u.node_id, u.round_number) ≠ (v.node_id, v.round_number)) :=
  (C6_unique_accepted cex_tag cex_train 0 1 [init_node 0 1000, init_node 1 1000]
    (by decide)).1

/-- C6 counterexample: there is no duplicate detection. When the same
participant appears twice in the coordinator's node list, both of its
updates for the round are accepted: two accepted updates with the identical
`(participant_id, round_number)` pair `(0, 1)`. -/
theorem C6_cex :
    (collect_updates cex_tag cex_train 0 1 [init_node 0 1000, init_node 0 1000]).map
      (fun u => (u.node_id, u.round_number)) = [(0, 1), (0, 1)] := by
  rfl

theorem run_round_nodes_eq (tag : Nat → Nat → String) (train : Nat → Option (List ℚ))
    (noise : Nat → ℚ) (ts : ℚ) (c : Coordinator) :
    (run_round tag train noise ts c).1.nodes
      = c.nodes.map (fun n => reward_node noise (c.round_number + 1)
          (apply_agg
            (if 2 ≤ (collect_updates tag train ts (c.round_number + 1) c.nodes).length then
              stake_weighted_trimmed_mean
                (collect_updates tag train ts (c.round_number + 1) c.nodes) (2 / 10)
            else none)
            (mark_contributor tag train ts (c.round_number + 1) n))) := by
  simp only [run_round, List.map_map]
  rfl

/-- C2 (amended): if fewer than 2 updates are accepted, the round produces no
consensus vector and applies none (the aggregation-success flag is false and
every node's model weights are unchanged — the code's analogue of aborting
with InsufficientUpdates), but stake rewards and penalties ARE still applied:
every online node's stake becomes `max 0 (stake + (50 + noise))` if it
contributed the single accepted update and `max 0 (stake - 20)` otherwise,
and its stake history grows by one entry; offline nodes are untouched. -/
theorem C2_insufficient (tag : Nat → Nat → String) (train : Nat → Option (List ℚ))
    (noise : Nat → ℚ) (ts : ℚ) (c : Coordinator)
    (hins : (collect_updates tag train ts (c.round_number + 1) c.nodes).length ≤ 1)
    (hlast : ∀ n ∈ c.nodes, n.last_update_round ≤ c.round_number) :
    (run_round tag train noise ts c).2.aggregation_success = false ∧
    (run_round tag train noise ts c).1.nodes.map Node.model_weights
      = c.nodes.map Node.model_weights ∧
    (run_round tag train noise ts c).1.nodes.map Node.stake
      = c.nodes.map (fun n =>
          if n.is_online then
            max 0 (n.stake + (if contributes tag train ts (c.round_number + 1) n
              then 50 + noise n.id else -20))
          else n.stake) ∧
    (run_round tag train noise ts c).1.nodes.map (fun n => n.stake_history.length)
      = c.nodes.map (fun n =>
          if n.is_online then n.stake_history.length + 1 else n.stake_history.length) := by
  have hagg : (if 2 ≤ (collect_updates tag train ts (c.round_number + 1) c.nodes).length then
      stake_weighted_trimmed_mean
        (collect_updates tag train ts (c.round_number + 1) c.nodes) (2 / 10)
    else none) = none := if_neg (by omega)
  refine ⟨?_, ?_, ?_, ?_⟩
  · simp only [run_round, hagg]
    rfl
  · rw [run_round_nodes_eq, hagg, List.map_map]
    apply List.map_congr_left
    intro n _
    by_cases ho : n.is_online = true <;>
      by_cases hc : contributes tag train ts (c.round_number + 1) n = true <;>
        simp [mark_contributor, apply_agg, reward_node, update_stake, ho, hc]
  · rw [run_round_nodes_eq, hagg, List.map_map]
    apply List.map_congr_left
    intro n hn
    by_cases ho : n.is_online = true
    · by_cases hc : contributes tag train ts (c.round_number + 1) n = true
      · simp [mark_contributor, apply_agg, reward_node, update_stake, ho, hc]
      · have hne : n.last_update_round ≠ c.round_number + 1 := by
          have := hlast n hn
          omega
        simp [mark_contributor, apply_agg, reward_node, update_stake, ho, hc, hne]
    · have hc : contributes tag train ts (c.round_number + 1) n = false := by
        unfold contributes
        simp [ho]
      simp [mark_contributor, apply_agg, reward_node, update_stake, ho, hc]
  · rw [run_round_nodes_eq, hagg, List.map_map]
    apply List.map_congr_left
    intro n hn
    by_cases ho : n.is_online = true <;>
      by_cases hc : contributes tag train ts (c.round_number + 1) n = true <;>
        simp [mark_contributor, apply_agg, reward_node, update_stake, ho, hc]

/-- Concrete noise input (models `random.uniform(-10, 10)` returning 0). -/
def cex_noise : Nat → ℚ := fun _ => 0

theorem C2_insufficient_witness :
    (run_round cex_tag cex_train cex_noise 0
        ⟨[init_node 0 1000, init_node 1 1000], 0⟩).2.aggregation_success = false :=
  (C2_insufficient cex_tag cex_train cex_noise 0
    ⟨[init_node 0 1000, init_node 1 1000], 0⟩ (by decide)
    (by intro n hn; fin_cases hn <;> decide)).1

/-- C2 counterexample: a round of the poc coordinator with exactly 1 accepted
update does not leave stakes alone: the contributing node 0 is rewarded
(1000 to 1050) and the non-contributing online node 1 is penalized
(1000 to 980), so rewards and penalties are applied even though the round
produced no consensus vector. -/
theorem C2_cex :
    (collect_updates cex_tag cex_train 0 1 [init_node 0 1000, init_node 1 1000]).length = 1 ∧
    (run_round cex_tag cex_train cex_noise 0
        ⟨[init_node 0 1000, init_node 1 1000], 0⟩).2.aggregation_success = false ∧
    (run_round cex_tag cex_train cex_noise 0
        ⟨[init_node 0 1000, init_node 1 1000], 0⟩).1.nodes.map Node.stake
      = [1050, 980] := by
  refine ⟨by decide, by decide, ?_⟩
  simp only [run_round_nodes_eq]
  norm_num [collect_updates, collect_one, contributes, verify_signature, create_update,
    mark_contributor, apply_agg, reward_node, update_stake, cex_tag, cex_train, cex_noise,
    init_node, max_def, List.filterMap_cons, List.filterMap_nil]

theorem getD_map_node (l : List Node) (f : Node → Node) (j : Nat) (hj : j < l.length) :
    (l.map f).getD j default = f (l.getD j default) := by
  rw [List.getD_eq_getElem _ _ (by simpa using hj), List.getD_eq_getElem _ _ hj]
  simp

theorem apply_agg_fields (agg : Option (List ℚ)) (n : Node) :
    (apply_agg agg n).stake = n.stake ∧ (apply_agg agg n).is_online = n.is_online ∧
    (apply_agg agg n).last_update_round = n.last_update_round ∧
    (apply_agg agg n).stake_history = n.stake_history ∧ (apply_agg agg n).id = n.id := by
  cases agg with
  | none => exact ⟨rfl, rfl, rfl, rfl, rfl⟩
  | some v => by_cases h : n.is_online = true <;> simp [apply_agg, h]

theorem contributes_online (tag : Nat → Nat → String) (train : Nat → Option (List ℚ))
    (ts : ℚ) (r : Nat) (n : Node) (h : contributes tag train ts r n = true) :
    n.is_online = true := by
  unfold contributes at h
  by_cases ho : n.is_online = true
  · exact ho
  · rw [Bool.not_eq_true] at ho
    rw [ho] at h
    simp at h

theorem stake_reward_pos (s e : ℚ) (hs : 0 ≤ s) (he : -10 ≤ e) :
    s < max 0 (s + (50 + e)) :=
  lt_max_of_lt_right (by linarith)

theorem update_stake_stake (n : Node) (d : ℚ) :
    (update_stake n d).stake = max 0 (n.stake + d) := rfl

/-- C7 (amended): in the poc coordinator's reward step, every online
participant that contributed an accepted update this round receives a
positive stake reward (`50 + noise`, with noise in `[-10, 10]`, so the stake
strictly increases); every other ONLINE participant is penalized (stake
becomes `max 0 (stake - 20)`); an OFFLINE known participant is not touched
at all — it receives no penalty; and there is no selection step, so accepted
means rewarded. In the production backend round, every node's stake strictly
increases (`50 + noise` unconditionally): nobody is ever penalized there. -/
theorem C7_rewarding (tag : Nat → Nat → String) (train : Nat → Option (List ℚ))
    (noise : Nat → ℚ) (ts : ℚ) (c : Coordinator) (j : Nat)
    (hj : j < c.nodes.length)
    (hlast : ∀ n ∈ c.nodes, n.last_update_round ≤ c.round_number)
    (hstake : 0 ≤ (c.nodes.getD j default).stake)
    (hnoise : ∀ i, -10 ≤ noise i) :
    (contributes tag train ts (c.round_number + 1) (c.nodes.getD j default) = true →
      (c.nodes.getD j default).stake
        < ((run_round tag train noise ts c).1.nodes.getD j default).stake) ∧
    ((c.nodes.getD j default).is_online = true →
      contributes tag train ts (c.round_number + 1) (c.nodes.getD j default) = false →
      ((run_round tag train noise ts c).1.nodes.getD j default).stake
        = max 0 ((c.nodes.getD j default).stake - 20)) ∧
    ((c.nodes.getD j default).is_online = false →
      (run_round tag train noise ts c).1.nodes.getD j default = c.nodes.getD j default) ∧
    (∀ (btrain : Nat → List ℚ) (nodes : List Node) (r j2 : Nat),
      j2 < nodes.length → 0 ≤ (nodes.getD j2 default).stake →
      (nodes.getD j2 default).stake
        < ((backend_fl_round btrain noise nodes r).1.getD j2 default).stake) := by
  have hrr := run_round_nodes_eq tag train noise ts c
  set r := c.round_number + 1 with hr
  set agg := (if 2 ≤ (collect_updates tag train ts r c.nodes).length then
      stake_weighted_trimmed_mean (collect_updates tag train ts r c.nodes) (2 / 10)
    else none) with hagg
  set nIn := c.nodes.getD j default with hnin
  have hmem : nIn ∈ c.nodes := by
    rw [hnin, List.getD_eq_getElem _ _ hj]
    exact List.getElem_mem hj
  have hout : (run_round tag train noise ts c).1.nodes.getD j default
      = reward_node noise r (apply_agg agg (mark_contributor tag train ts r nIn)) := by
    rw [hrr]
    exact getD_map_node c.nodes _ j hj
  refine ⟨?_, ?_, ?_, ?_⟩
  · intro hc
    have ho : nIn.is_online = true := contributes_online tag train ts r nIn hc
    have hmark : mark_contributor tag train ts r nIn = { nIn with last_update_round := r } :=
      if_pos hc
    rw [hout, hmark]
    obtain ⟨hs, hon, hl, _, hid⟩ := apply_agg_fields agg { nIn with last_update_round := r }
    unfold reward_node
    rw [if_pos (by rw [hon]; exact ho), if_pos (by rw [hl]), update_stake]
    simp only [hs, hid]
    exact stake_reward_pos nIn.stake (noise nIn.id) hstake (hnoise nIn.id)
  · intro ho hc
    have hmark : mark_contributor tag train ts r nIn = nIn := if_neg (by simp [hc])
    rw [hout, hmark]
    obtain ⟨hs, hon, hl, _, hid⟩ := apply_agg_fields agg nIn
    have hne : (apply_agg agg nIn).last_update_round ≠ r := by
      rw [hl]
      have := hlast nIn hmem
      omega
    unfold reward_node
    rw [if_pos (by rw [hon]; exact ho), if_neg hne, update_stake]
    simp only [hs]
    congr 1
    ring
  · intro ho
    have hc : contributes tag train ts r nIn = false := by
      unfold contributes
      simp [ho]
    have hmark : mark_contributor tag train ts r nIn = nIn := if_neg (by simp [hc])
    have happ : apply_agg agg nIn = nIn := by
      cases agg with
      | none => rfl
      | some v => exact if_neg (by simp [ho])
    have hrew : reward_node noise r nIn = nIn := if_neg (by simp [ho])
    rw [hout, hmark, happ, hrew]
  · intro btrain nodes rr j2 hj2 hst2
    set bagg := stake_weighted_trimmed_mean (nodes.map (fun (n : Node) =>
      ({ node_id := n.id, round_number := rr + 1, weights := btrain n.id,
         stake := n.stake, contribution_score := n.contribution_score,
         timestamp := 0, signature := "" } : ModelUpdate))) (2 / 10) with hbagg
    have hbe : (backend_fl_round btrain noise nodes rr).1.getD j2 default
        = update_stake (backend_apply bagg (nodes.getD j2 default))
            (50 + noise (backend_apply bagg (nodes.getD j2 default)).id) := by
      simp only [backend_fl_round, List.map_map]
      exact getD_map_node nodes _ j2 hj2
    rw [hbe]
    have hfields : ∀ (a : Option (List ℚ)) (n : Node),
        (backend_apply a n).stake = n.stake ∧ (backend_apply a n).id = n.id := by
      intro a n
      cases a with
      | none => exact ⟨rfl, rfl⟩
      | some v => exact ⟨rfl, rfl⟩
    obtain ⟨hs, _⟩ := hfields bagg (nodes.getD j2 default)
    rw [update_stake_stake, hs]
    exact stake_reward_pos _ _ hst2 (hnoise _)

theorem C7_rewarding_witness :
    ([init_node 0 1000, init_node 1 1000].getD 0 default).stake
      < ((run_round cex_tag cex_train cex_noise 0
          ⟨[init_node 0 1000, init_node 1 1000], 0⟩).1.nodes.getD 0 default).stake :=
  (C7_rewarding cex_tag cex_train cex_noise 0 ⟨[init_node 0 1000, init_node 1 1000], 0⟩ 0
    (by decide) (by intro n hn; fin_cases hn <;> decide) (by decide)
    (fun i => by norm_num [cex_noise])).1 (by decide)

/-- Concrete trainer under which nodes 0 and 1 return deltas. -/
def cex_train2 : Nat → Option (List ℚ) := fun i =>
  if i = 0 then some [1] else if i = 1 then some [3] else none

/-- Known participant that is offline for the round. -/
def offline_node : Node :=
  { id := 2, stake := 1000, contribution_score := 1, stake_history := [1000],
    last_update_round := 0, is_online := false, model_weights := [] }

/-- C7 counterexample: a round that completes successfully (two accepted
updates, consensus vector produced) rewards the two contributors
(1000 to 1050 each) but leaves the offline known participant 2 completely
untouched — no penalty is applied to it, its record is unchanged —
contradicting the claim that every known participant without an accepted and
selected update receives a stake penalty. -/
theorem C7_cex :
    (run_round cex_tag cex_train2 cex_noise 0
        ⟨[init_node 0 1000, init_node 1 1000, offline_node], 0⟩).2.aggregation_success
      = true ∧
    (run_round cex_tag cex_train2 cex_noise 0
        ⟨[init_node 0 1000, init_node 1 1000, offline_node], 0⟩).1.nodes.map Node.stake
      = [1050, 1050, 1000] ∧
    (run_round cex_tag cex_train2 cex_noise 0
        ⟨[init_node 0 1000, init_node 1 1000, offline_node], 0⟩).1.nodes.getD 2 default
      = offline_node := by
  have hcol : collect_updates cex_tag cex_train2 0 1
      [init_node 0 1000, init_node 1 1000, offline_node]
      = [⟨0, 1, [1], 1000, 1, 0, "s"⟩, ⟨1, 1, [3], 1000, 1, 0, "s"⟩] := rfl
  refine ⟨?_, ?_, ?_⟩
  · simp only [run_round]
    norm_num [hcol, stake_weighted_trimmed_mean]
  · simp only [run_round_nodes_eq]
    norm_num [collect_updates, collect_one, contributes, verify_signature,
      create_update, mark_contributor, apply_agg, reward_node, update_stake,
      cex_tag, cex_train2, cex_noise, init_node, offline_node, max_def,
      stake_weighted_trimmed_mean, List.filterMap_cons, List.filterMap_nil]
  · simp only [run_round_nodes_eq]
    norm_num [collect_updates, collect_one, contributes, verify_signature,
      create_update, mark_contributor, apply_agg, reward_node, update_stake,
      cex_tag, cex_train2, cex_noise, init_node, offline_node, max_def,
      stake_weighted_trimmed_mean, List.filterMap_cons, List.filterMap_nil]

theorem pyIdx_nonneg (len : Nat) (i : Int) (h : 0 ≤ i) : pyIdx len i = min i.toNat len := by
  unfold pyIdx
  rw [if_neg (by omega)]

theorem pySlice_zero_start (l : List α) (b : Int) (hb : 0 ≤ b) :
    pySlice l 0 b = l.take (min b.toNat l.length) := by
  unfold pySlice
  rw [pyIdx_nonneg _ _ le_rfl, pyIdx_nonneg _ _ hb]
  simp

theorem npSort_eraseIdx (row : List ℚ) (i : Nat) (hi : i < row.length)
    (h0 : row.getD i 0 = 0) (hnn : ∀ x ∈ row, 0 ≤ x) :
    npSort row = 0 :: npSort (row.eraseIdx i) := by
  have h3 : row[i] = 0 := by rw [← List.getD_eq_getElem row 0 hi]; exact h0
  have hperm : row.Perm (0 :: row.eraseIdx i) := by
    have h1 : row = row.take i ++ row[i] :: row.drop (i + 1) := by
      conv_lhs => rw [← List.take_append_drop i row]
      rw [List.drop_eq_getElem_cons hi]
    have h2 : row.eraseIdx i = row.take i ++ row.drop (i + 1) :=
      List.eraseIdx_eq_take_drop_succ row i
    rw [h2, ← h3]
    conv_lhs => rw [h1]
    exact List.perm_middle
  have hsorted2 : List.Sorted (· ≤ ·) (0 :: npSort (row.eraseIdx i)) := by
    rw [List.sorted_cons]
    constructor
    · intro b hb
      have hb' : b ∈ row.eraseIdx i := by simpa [npSort, List.mem_insertionSort] using hb
      exact hnn b ((List.eraseIdx_sublist row i).subset hb')
    · exact npSort_sorted _
  have hperm2 : (npSort row).Perm (0 :: npSort (row.eraseIdx i)) :=
    (npSort_perm row).trans (hperm.trans (List.Perm.cons 0 (npSort_perm _).symm))
  exact List.eq_of_perm_of_sorted hperm2 (npSort_sorted row) hsorted2

theorem krum_score_eq_spec (row : List ℚ) (i n m : Nat)
    (hlen : row.length = n) (hi : i < n) (h0 : row.getD i 0 = 0)
    (hnn : ∀ x ∈ row, 0 ≤ x) (hk : m + 3 ≤ n) :
    krum_score ((n : Int) - (m : Int) - 2) row = spec_krum_score (n - m - 2) row i := by
  unfold krum_score spec_krum_score
  have hrw := npSort_eraseIdx row i (by omega) h0 hnn
  have hsl : (npSort row).length = n := by
    rw [npSort, List.length_insertionSort, hlen]
  rw [hrw] at hsl ⊢
  unfold pySlice
  have e1 : pyIdx (0 :: npSort (row.eraseIdx i)).length 1 = 1 := by
    unfold pyIdx
    rw [if_neg (by omega)]
    rw [hsl]
    omega
  have e2 : pyIdx (0 :: npSort (row.eraseIdx i)).length ((n : Int) - (m : Int) - 2 + 1)
      = n - m - 1 := by
    unfold pyIdx
    rw [if_neg (by omega)]
    rw [hsl]
    omega
  rw [e1, e2]
  have e3 : n - m - 1 - 1 = n - m - 2 := by omega
  rw [e3]
  rfl

/-- C1 (amended): over any distance matrix with zero self-distances and
non-negative entries (in particular every pairwise Euclidean distance
matrix), when the neighbor count `k = N - f - 2` is positive and `2f ≤ N`,
`_multi_krum_select` returns exactly the `keep = min(N - 2f + 2, N)`
lowest-scoring candidate indices — Krum score of candidate `i` being the sum
of the `k` smallest entries of row `i` after excluding the self-distance,
with exact ties broken by ascending index. -/
theorem C1_multi_krum (m : Nat) (D : List (List ℚ))
    (hsq : ∀ row ∈ D, row.length = D.length)
    (hdiag : ∀ i ∈ List.range D.length, (D.getD i []).getD i 0 = 0)
    (hnn : ∀ row ∈ D, ∀ x ∈ row, 0 ≤ x)
    (hk : m + 3 ≤ D.length) (hm : 2 * m ≤ D.length) :
    multi_krum_select m D = spec_select_fixed m D := by
  simp only [multi_krum_select, spec_select_fixed]
  have hscores : (List.range D.length).map
        (fun i => (krum_score ((D.length : Int) - (m : Int) - 2) (D.getD i []), i))
      = (List.range D.length).map
        (fun i => (spec_krum_score (D.length - m - 2) (D.getD i []) i, i)) := by
    apply List.map_congr_left
    intro i hi
    have hi' : i < D.length := List.mem_range.mp hi
    have hrowmem : D.getD i [] ∈ D := by
      rw [List.getD_eq_getElem _ _ hi']
      exact List.getElem_mem hi'
    rw [krum_score_eq_spec (D.getD i []) i D.length m (hsq _ hrowmem) hi'
      (hdiag i hi) (hnn _ hrowmem) hk]
  rw [hscores]
  congr 1
  rw [pySlice_zero_start _ _
    (show (0 : Int) ≤ min ((D.length : Int) - 2 * (m : Int) + 2) (D.length : Int) by omega)]
  have hslen : (List.insertionSort scoreLe ((List.range D.length).map
      (fun i => (spec_krum_score (D.length - m - 2) (D.getD i []) i, i)))).length
      = D.length := by
    rw [List.length_insertionSort, List.length_map, List.length_range]
  rw [hslen]
  congr 1
  omega

/-- Witness distance matrix: three one-dimensional points 0, 1, 2. -/
def wit_matrix : List (List ℚ) := [[0, 1, 2], [1, 0, 1], [2, 1, 0]]

theorem C1_multi_krum_witness :
    multi_krum_select 0 wit_matrix = spec_select_fixed 0 wit_matrix :=
  C1_multi_krum 0 wit_matrix (by decide) (by decide) (by decide) (by decide) (by decide)

/-- C1 counterexample: for the four one-dimensional vectors 0, 1, 2, 6 and
`f = 1` (so `k = 1 > 0`), the code keeps `min(N - 2f + 2, N) = 4` indices,
not the claimed `keep = max(N - 2f, 1) = 2`: it returns all of
`[0, 1, 2, 3]` while the claimed procedure returns `[0, 1]`. -/
theorem C1_cex :
    multi_krum_select 1 (pairwise_distances dist1 [0, 1, 2, 6])
      ≠ spec_select_claimed 1 (pairwise_distances dist1 [0, 1, 2, 6]) := by
  have h1 : multi_krum_select 1 (pairwise_distances dist1 [0, 1, 2, 6]) = [0, 1, 2, 3] := by
    have t2 : Int.toNat 2 = 2 := rfl
    have t4 : Int.toNat 4 = 4 := rfl
    norm_num [multi_krum_select, pairwise_distances, dist1, krum_score, npSort, pySlice,
      pyIdx, List.insertionSort, List.orderedInsert, scoreLe, t2, t4]
  have h2 : spec_select_claimed 1 (pairwise_distances dist1 [0, 1, 2, 6]) = [0, 1] := by
    norm_num [spec_select_claimed, pairwise_distances, dist1, spec_krum_score, npSort,
      List.insertionSort, List.orderedInsert, scoreLe, Int.toNat_ofNat]
  rw [h1, h2]
  decide

/-- C5 (amended): when the neighbor count `k = N - f - 2` is 0 or -1,
selection neither aborts nor falls back to returning all `N` indices, and no
degeneracy flag exists: every candidate's Krum score is the sum of an empty
slice (0), and `_multi_krum_select` returns the `min(N - 2f + 2, N)` (here
stated for `2f ≤ N + 2`, so that the count is non-negative) lowest-index
candidates — which is in general a strict subset of all indices. -/
theorem C5_degenerate (m : Nat) (D : List (List ℚ))
    (h1 : m + 1 ≤ D.length) (h2 : D.length ≤ m + 2) (h3 : 2 * m ≤ D.length + 2) :
    multi_krum_select m D
      = (List.range D.length).take (min (D.length + 2 - 2 * m) D.length) := by
  simp only [multi_krum_select]
  have hsc : ∀ row : List ℚ, krum_score ((D.length : Int) - (m : Int) - 2) row = 0 := by
    intro row
    unfold krum_score pySlice
    have hb : pyIdx (npSort row).length ((D.length : Int) - (m : Int) - 2 + 1)
        ≤ pyIdx (npSort row).length 1 := by
      unfold pyIdx
      rw [if_neg (by omega), if_neg (by omega)]
      omega
    rw [Nat.sub_eq_zero_of_le hb]
    simp
  have hmap : (List.range D.length).map
      (fun i => (krum_score ((D.length : Int) - (m : Int) - 2) (D.getD i []), i))
      = (List.range D.length).map (fun i => ((0 : ℚ), i)) := by
    apply List.map_congr_left
    intro i _
    rw [hsc]
  rw [hmap]
  have hsorted : List.Sorted scoreLe ((List.range D.length).map (fun i => ((0 : ℚ), i))) := by
    refine List.pairwise_map.mpr ?_
    exact (List.pairwise_lt_range D.length).imp (fun h => Or.inr ⟨rfl, Nat.le_of_lt h⟩)
  rw [List.Sorted.insertionSort_eq hsorted]
  rw [pySlice_zero_start _ _
    (show (0 : Int) ≤ min ((D.length : Int) - 2 * (m : Int) + 2) (D.length : Int) by omega)]
  rw [← List.map_take, List.map_map]
  have hid : Prod.snd ∘ (fun (i : Nat) => ((0 : ℚ), i)) = id := rfl
  rw [hid, List.map_id]
  simp only [List.length_map, List.length_range]
  congr 1
  omega

/-- Witness distance matrix for the degenerate case: four one-dimensional
points 0, 1, 5, 7 with an assumed Byzantine count of 2, so `k = 0`. -/
def wit_matrix4 : List (List ℚ) := [[0, 1, 5, 7], [1, 0, 4, 6], [5, 4, 0, 2], [7, 6, 2, 0]]

theorem C5_degenerate_witness :
    multi_krum_select 2 wit_matrix4
      = (List.range wit_matrix4.length).take
          (min (wit_matrix4.length + 2 - 2 * 2) wit_matrix4.length) :=
  C5_degenerate 2 wit_matrix4 (by decide) (by decide) (by decide)

/-- C5 counterexample: for the four one-dimensional vectors 0, 1, 5, 7 and
`f = 2` the neighbor count is `k = 4 - 2 - 2 = 0 ≤ 0`, yet the code does not
fall back to returning all indices: it returns `[0, 1]`, dropping candidates
2 and 3, and no `selection_degenerate` flag exists anywhere in the round. -/
theorem C5_cex :
    ((4 : Int) - 2 - 2 ≤ 0) ∧
    multi_krum_select 2 (pairwise_distances dist1 [0, 1, 5, 7])
      ≠ List.range (pairwise_distances dist1 [0, 1, 5, 7]).length := by
  refine ⟨by norm_num, ?_⟩
  have t0 : Int.toNat 0 = 0 := rfl
  have t1 : Int.toNat 1 = 1 := rfl
  have t2 : Int.toNat 2 = 2 := rfl
  have h1 : multi_krum_select 2 (pairwise_distances dist1 [0, 1, 5, 7]) = [0, 1] := by
    norm_num [multi_krum_select, pairwise_distances, dist1, krum_score, npSort, pySlice,
      pyIdx, List.insertionSort, List.orderedInsert, scoreLe, t0, t1, t2]
  rw [h1]
  decide
